import Mathlib

/-
Shallow embedding of the TabRF SignalParser (src/src/signal_parser.h).

Machine integers are modelled as Nat with explicit `% 2 ^ w` reductions at
the points where the C code narrows a wider intermediate value into a
`uint8_t` / `uint16_t` (CodeTime) storage location.  Strings are modelled as
`List Char`; the callback is modelled by recording the list of strings that
are passed to it.  The `parse(CodeTime)` member recurses at most once (the
retry path); the embedding makes that recursion explicit with a fuel
parameter, and a theorem below shows that fuel 2 is always enough, exactly
mirroring the bounded self-re-invocation of the C code.
-/

namespace SignalParser

/-- SP_START capability bit (signal_parser.h line 27). -/
def SP_START : Nat := 1

/-- SP_DATA capability bit (line 28). -/
def SP_DATA : Nat := 2

/-- SP_END capability bit (line 29). -/
def SP_END : Nat := 4

/-- SP_ANY = SP_DATA | SP_END (line 30). -/
def SP_ANY : Nat := 6

/-- Maximal number of timing slots of one code (line 21). -/
def MAX_CODELENGTH : Nat := 8

/-- Maximal length of a code sequence (line 22). -/
def MAX_SEQUENCE_LENGTH : Nat := 120

/-- Maximal protocol name length including the terminating NUL (line 25). -/
def PROTNAME_LEN : Nat := 12

/-- struct Code (lines 45-58): protocol membership, capability mask, display
character, slot count, per-slot `[minTime, maxTime]` windows, and the
transient matching state `cnt` / `valid`. -/
structure Code where
  protId : Nat
  type : Nat
  name : Char
  length : Nat
  minTime : List Nat
  maxTime : List Nat
  cnt : Nat
  valid : Bool
deriving DecidableEq

/-- struct Protocol (lines 63-84).  The unused `length` member (number of
codes, only written) is omitted. -/
structure Protocol where
  id : Nat
  name : List Char
  minCodeLen : Nat
  maxCodeLen : Nat
  tolerance : Nat
  sendRepeat : Nat
deriving DecidableEq

/-- The class variables of SignalParser (lines 96-114).  `_seq_length` is
`seq.length`; `_callbackFunc` is modelled by the flag `callbackAttached`
together with the list of strings handed to the callback, which `parse`
returns. -/
structure SPState where
  debugMode : Bool
  protocols : List Protocol
  codes : List Code
  seq : List Char
  seq_codelength : Nat
  seq_protocol : Option Protocol
  callbackAttached : Bool
deriving DecidableEq

/-- `_findProt(uint8_t)` (lines 119-131): linear scan for the first
protocol with the given id. -/
def findProtId (ps : List Protocol) (protId : Nat) : Option Protocol :=
  ps.find? (fun p => p.id == protId)

/-- `_findProt(char *)` (lines 134-146): linear scan by exact name. -/
def findProtName (ps : List Protocol) (nm : List Char) : Option Protocol :=
  ps.find? (fun p => p.name == nm)

/-- `_findCode` (lines 149-161): first code with the given protocol id and
one-character name. -/
def findCode (cs : List Code) (protId : Nat) (ch : Char) : Option Code :=
  cs.find? (fun c => c.protId == protId && c.name == ch)

/-- The code-table part of `_resetCode` (lines 167-176): every code gets
`cnt = 0` and `valid = true`. -/
def resetCodes (cs : List Code) : List Code :=
  cs.map (fun c => { c with cnt := 0, valid := true })

/-- `_resetCode(true)` (lines 178-183): additionally clear the sequence,
the duration counter and the protocol lock. -/
def fullReset (st : SPState) : SPState :=
  { st with codes := resetCodes st.codes, seq := [], seq_codelength := 0,
            seq_protocol := none }

/-- `newProtocol` (lines 214-241).  `_protocolCount` is
`protocols.length`; the `uint8_t` id field and the `uint8_t` return value
truncate the running count modulo 256.  `strncpy` plus the forced NUL at
index 11 truncate the name to `PROTNAME_LEN - 1` characters. -/
def newProtocol (st : SPState) (nm : List Char) (minLen maxLen tolerance rep : Nat) :
    SPState × Nat :=
  if minLen > maxLen ∨ MAX_SEQUENCE_LENGTH ≤ maxLen then (st, 0)
  else
    let cnt := st.protocols.length + 1
    let p : Protocol :=
      { id := cnt % 256, name := nm.take (PROTNAME_LEN - 1), minCodeLen := minLen,
        maxCodeLen := maxLen, tolerance := tolerance, sendRepeat := rep }
    ({ st with protocols := st.protocols ++ [p] }, cnt % 256)

/-- The slot-collection step of `newCode` (lines 268-277): each of the up
to eight CodeTime (uint16) arguments is kept when it is positive. -/
def filteredTimes (ts : List Nat) : List Nat :=
  ((ts.take MAX_CODELENGTH).map (fun t => t % 65536)).filter (fun t => 0 < t)

/-- The window computation of `newCode` (lines 280-285):
`radius = (t * tolerance) / 100` narrowed into a uint16, then
`minTime = t - radius` and `maxTime = t + radius`, both narrowed into the
uint16 CodeTime fields. -/
def mkSlot (tol t : Nat) : Nat × Nat :=
  let radius := t * tol / 100 % 65536
  ((t + 65536 - radius) % 65536, (t + radius) % 65536)

/-- `newCode` (lines 243-287): silently does nothing when the protocol id
is unknown, otherwise appends one Code with the computed windows. -/
def newCode (st : SPState) (protId : Nat) (ch : Char) (ty : Nat) (ts : List Nat) : SPState :=
  match findProtId st.protocols protId with
  | none => st
  | some p =>
    let slots := (filteredTimes ts).map (mkSlot p.tolerance)
    let c : Code :=
      { protId := protId, type := ty, name := ch, length := slots.length,
        minTime := slots.map Prod.fst, maxTime := slots.map Prod.snd,
        cnt := 0, valid := true }
    { st with codes := st.codes ++ [c] }

/-- The value of `_seq_protocol->id` as `parse` reads it; the C code only
dereferences the pointer when a sequence is in progress (the invariant
proved below), so the `none` default is never observable on reachable
states. -/
def lockedIdOf (st : SPState) : Nat :=
  match st.seq_protocol with
  | some p => p.id
  | none => 0

/-- `_seq_protocol->maxCodeLen` as read in parse line 448. -/
def protMaxLen (st : SPState) : Nat :=
  match st.seq_protocol with
  | some p => p.maxCodeLen
  | none => 0

/-- `_seq_protocol->minCodeLen` as read in parse line 450. -/
def protMinLen (st : SPState) : Nat :=
  match st.seq_protocol with
  | some p => p.minCodeLen
  | none => 0

/-- `_seq_protocol->name` as read in parse line 456. -/
def protName (st : SPState) : List Char :=
  match st.seq_protocol with
  | some p => p.name
  | none => []

/-- The condition cascade of `parse` for one candidate code
(lines 344-377).  Returns (valid, retryCandidate contribution).  `i` is the
current slot index `c.cnt`; `i == c->length - 1` over int arithmetic is
`c.cnt + 1 = c.length`. -/
def checkCode (seqLen lockedId : Nat) (c : Code) (duration : Nat) : Bool × Bool :=
  let i := c.cnt
  if seqLen = 0 ∧ c.type &&& SP_START = 0 then (false, false)
  else if 0 < seqLen ∧ c.protId ≠ lockedId then (false, false)
  else if 0 < seqLen ∧ c.type &&& SP_ANY = 0 then (false, false)
  else if c.type &&& SP_END ≠ 0 ∧ i + 1 = c.length ∧ c.minTime.getD i 0 < duration then
    (true, false)
  else if duration < c.minTime.getD i 0 ∨ c.maxTime.getD i 0 < duration then
    (false, if 0 < i ∧ seqLen = 0 then true else false)
  else (true, false)

/-- Result of the candidate-scanning `while` loop of `parse`
(lines 334-404): the updated code table, the completed code (if any, the
first one in table order), whether any code accepted the duration, and the
accumulated `retryCandidate` flag. -/
structure ScanOut where
  codes : List Code
  found : Option Code
  matched : Bool
  retry : Bool
deriving DecidableEq

/-- The candidate-scanning `while` loop of `parse` (lines 334-404).  A
completing code breaks out of the loop; the codes after it are returned
untouched (the caller resets the whole table in that case, mirroring the
`_resetCode(false)` executed inside the loop before the `break`). -/
def scanCodes (seqLen lockedId duration : Nat) : List Code → ScanOut
  | [] => ⟨[], none, false, false⟩
  | c :: rest =>
    if c.valid then
      let vr := checkCode seqLen lockedId c duration
      if vr.1 then
        let c1 : Code := { c with cnt := c.cnt + 1, valid := true }
        if c1.cnt = c.length then ⟨c1 :: rest, some c1, true, vr.2⟩
        else
          let o := scanCodes seqLen lockedId duration rest
          ⟨c1 :: o.codes, o.found, true, vr.2 || o.retry⟩
      else
        let c1 : Code := { c with valid := false }
        let o := scanCodes seqLen lockedId duration rest
        ⟨c1 :: o.codes, o.found, o.matched, vr.2 || o.retry⟩
    else
      let o := scanCodes seqLen lockedId duration rest
      ⟨c :: o.codes, o.found, o.matched, o.retry⟩

/-- The debug diagnostic string `"*<_seq_codelength>,<_seq_length>"`
(parse lines 417-419). -/
def diagChars (st : SPState) : List Char :=
  '*' :: (Nat.repr st.seq_codelength).data ++ ',' :: (Nat.repr st.seq.length).data

/-- One invocation of `parse(CodeTime)` (lines 323-471), parametric in the
function used for the recursive retry call.  The returned list collects
the strings passed to `_callbackFunc`, in order.  The sequence-found
emission (line 456) is `snprintf` into a 64-byte buffer, hence the
`take 63` truncation. -/
def parseBody (recur : SPState → Nat → SPState × List (List Char))
    (st : SPState) (duration : Nat) : SPState × List (List Char) :=
  if st.protocols = [] then (st, [])
  else
    let o := scanCodes st.seq.length (lockedIdOf st) duration st.codes
    match o.found with
    | some c =>
      let seq2 := st.seq ++ [c.name]
      let st1 : SPState :=
        { st with codes := resetCodes o.codes, seq := seq2,
                  seq_codelength := (st.seq_codelength + 1) % 256 }
      if seq2.length = 1 then
        if c.type &&& SP_START = 0 then (fullReset st1, [])
        else ({ st1 with seq_protocol := findProtId st1.protocols c.protId }, [])
      else if c.type &&& SP_END ≠ 0 ∨ seq2.length = protMaxLen st then
        let ems :=
          if st.callbackAttached = true ∧ protMinLen st ≤ seq2.length then
            [(protName st ++ ' ' :: seq2).take 63]
          else []
        (fullReset st1, ems)
      else if seq2.length = MAX_SEQUENCE_LENGTH - 2 then (fullReset st1, [])
      else (st1, [])
    | none =>
      if o.matched then
        ({ st with codes := o.codes,
                   seq_codelength := (st.seq_codelength + 1) % 256 }, [])
      else
        let dbg :=
          if st.debugMode = true ∧ 10 < st.seq.length then [diagChars st] else []
        let st1 := fullReset { st with codes := o.codes }
        if o.retry then
          let r := recur st1 duration
          (r.1, dbg ++ r.2)
        else (st1, dbg)

/-- `parse(CodeTime)` with explicit fuel for the bounded retry recursion.
Fuel 2 models the C function exactly (theorem `c6_retry_once` below). -/
def parseFuel : Nat → SPState → Nat → SPState × List (List Char)
  | 0, st, _ => (st, [])
  | fuel + 1, st, duration => parseBody (parseFuel fuel) st duration

/-- `parse(CodeTime duration)` (lines 323-471). -/
def parse (st : SPState) (duration : Nat) : SPState × List (List Char) :=
  parseFuel 2 st duration

/-- `parse(CodeTime *durations)` (lines 311-320): processes durations
until the zero sentinel. -/
def parseList : SPState → List Nat → SPState × List (List Char)
  | st, [] => (st, [])
  | st, d :: ds =>
    if d = 0 then (st, [])
    else
      let r1 := parse st d
      let r2 := parseList r1.1 ds
      (r2.1, r1.2 ++ r2.2)

/-- The timing midpoints `(minTime[i] + maxTime[i]) / 2` of one code
(compose, lines 498-500). -/
def midpoints (c : Code) : List Nat :=
  (List.range c.length).map (fun i => (c.minTime.getD i 0 + c.maxTime.getD i 0) / 2)

/-- The character loop of `compose` (lines 495-504): `len` is decremented
once per character; every resolved code appends all of its slot midpoints. -/
def composeChars (cs : List Code) (pid : Nat) : List Char → Nat → List Nat
  | [], _ => []
  | _ :: _, 0 => []
  | ch :: s, Nat.succ len =>
    match findCode cs pid ch with
    | some c => midpoints c ++ composeChars cs pid s len
    | none => composeChars cs pid s len

/-- The protocol-name extraction of `compose` (lines 479-486): `strncpy`
into a 12-byte buffer with a forced NUL at index 11, then cut at the first
space. -/
def protnameOf (sequence : List Char) : List Char :=
  (sequence.take (PROTNAME_LEN - 1)).takeWhile (fun ch => ch ≠ ' ')

/-- The code-character part of the sequence text: everything after the
first space (lines 488-490). -/
def afterSpace (sequence : List Char) : List Char :=
  (sequence.dropWhile (fun ch => ch ≠ ' ')).drop 1

/-- `compose` (lines 477-507).  When the protocol is not found nothing is
written (not even the sentinel), modelled as `none`; otherwise the written
durations followed by the zero sentinel. -/
def compose (st : SPState) (sequence : List Char) (len : Nat) : Option (List Nat) :=
  match findProtName st.protocols (protnameOf sequence) with
  | none => none
  | some p => some (composeChars st.codes p.id (afterSpace sequence) len ++ [0])

/-- The transient part of a code: `coreOf c` forgets the matcher-owned
working state `cnt` / `valid`.  `resetCodes` is exactly `map coreOf`. -/
def coreOf (c : Code) : Code :=
  { c with cnt := 0, valid := true }

/-- Well-formed table: every code belongs to a registered protocol.  This
holds for tables built through `newCode`, which rejects unknown ids. -/
def WF (st : SPState) : Prop :=
  ∀ c ∈ st.codes, (findProtId st.protocols c.protId).isSome = true

/-- The MATCHING-state invariant: either no sequence is in progress, or
the protocol lock is non-null and points at the protocol (looked up by id)
of a START-capable code of the table whose character is the first
character of the sequence — the code whose completion opened the attempt. -/
def Inv (st : SPState) : Prop :=
  st.seq = [] ∨
  ∃ c ∈ st.codes, c.type &&& SP_START ≠ 0 ∧ st.seq.head? = some c.name ∧
    st.seq_protocol.isSome = true ∧ st.seq_protocol = findProtId st.protocols c.protId

/-- Replay predicate for one code: feeding the durations `ds` into the
candidate scan, starting from the code table `cs` with sequence length
`seqLen` and locked protocol `lockedId`, every duration but the last is
accepted by some code without completing one, and the last duration
completes a code with the given name, capability mask and protocol. -/
def decodesBlock (seqLen lockedId : Nat) (ch : Char) (ty pid : Nat) :
    List Code → List Nat → Bool
  | _, [] => false
  | cs, d :: ds =>
    let o := scanCodes seqLen lockedId d cs
    match ds with
    | [] =>
      match o.found with
      | some c1 => c1.name == ch && c1.type == ty && c1.protId == pid
      | none => false
    | _ :: _ =>
      match o.found with
      | some _ => false
      | none => o.matched && decodesBlock seqLen lockedId ch ty pid o.codes ds

/-- One code of an emitted sequence replays unambiguously at position `k`:
its midpoint durations are all non-zero and, scanned from the reset table
`cs0`, they complete exactly that code. -/
def blockOK (p : Protocol) (cs0 : List Code) (k : Nat) (c : Code) : Bool :=
  decodesBlock k p.id c.name c.type c.protId cs0 (midpoints c) &&
    (midpoints c).all (fun d => d != 0)

/-- All codes of the tail of an emitted sequence replay unambiguously from
their positions, and no interior code ends the sequence early (no END
capability, never landing on `maxCodeLen` or on the buffer cap). -/
def chainOK (p : Protocol) (cs0 : List Code) : Nat → List Code → Bool
  | _, [] => false
  | k, c :: rest =>
    match rest with
    | [] => blockOK p cs0 k c
    | _ :: _ =>
      blockOK p cs0 k c && (c.type &&& SP_END == 0) && (k + 1 != p.maxCodeLen) &&
        (k + 1 != MAX_SEQUENCE_LENGTH - 2) && chainOK p cs0 (k + 1) rest

/-- State of the matcher in the middle of replaying a sequence: `pre`
characters collected, protocol locked to `p`, code table back in its reset
form. -/
def midState (st0 : SPState) (p : Protocol) (pre : List Char) (cl : Nat) : SPState :=
  { st0 with seq := pre, seq_codelength := cl, seq_protocol := some p }

/-- Default code used with `List.getD`. -/
def code0 : Code :=
  ⟨0, 0, 'a', 0, [], [], 0, true⟩

/-- A fresh parser with an attached callback and no table. -/
def emptyState : SPState :=
  ⟨false, [], [], [], 0, none, true⟩

/-- Example protocol `p`: minCodeLen 2, maxCodeLen 100, tolerance 25 %. -/
def exProt1 : SPState :=
  (newProtocol emptyState ['p'] 2 100 25 3).1

/-- Example table with overlapping DATA windows: s START [750,1250],
a DATA [120,200], b DATA [143,237], e END [3000,5000].  The midpoint of b
(190) also lies inside the window of a. -/
def exTable1 : SPState :=
  newCode (newCode (newCode (newCode exProt1 1 's' SP_START [1000]) 1 'a' SP_DATA [160])
    1 'b' SP_DATA [190]) 1 'e' SP_END [4000]

/-- The same table without the ambiguous code a. -/
def exTable5w : SPState :=
  newCode (newCode (newCode exProt1 1 's' SP_START [1000]) 1 'b' SP_DATA [190])
    1 'e' SP_END [4000]

/-- The matcher of `exTable1` after the start code completed. -/
def stMid1 : SPState :=
  (parseList exTable1 [1000]).1

/-- The matcher of `exTable5w` after the start code completed. -/
def stMid5 : SPState :=
  (parseList exTable5w [1000]).1

/-- Protocol with tolerance 0 and a long maximal length, for the
truncation counterexample. -/
def exProtT : SPState :=
  (newProtocol emptyState ['p'] 1 119 0 3).1

/-- Table for the truncation counterexample: a START|DATA [100,100],
e END [4000,4000]. -/
def exTableT : SPState :=
  newCode (newCode exProtT 1 'a' (SP_START ||| SP_DATA) [100]) 1 'e' SP_END [4000]

/-- Protocol `q` with tolerance 0 and a two-slot code x. -/
def exProt7 : SPState :=
  (newProtocol emptyState ['q'] 1 10 0 3).1

/-- Table with the two-slot code x: slots [100,100] and [200,200]. -/
def exTable7 : SPState :=
  newCode exProt7 1 'x' SP_START [100, 200]

/-- Protocol `r` with tolerance 25 %, for the window-overflow
counterexample. -/
def exProt8 : SPState :=
  (newProtocol emptyState ['r'] 1 10 25 3).1

/-- Registering `n` protocols in a row. -/
def regMany : Nat → SPState → SPState
  | 0, st => st
  | n + 1, st => regMany n (newProtocol st ['x'] 1 1 25 3).1

/-- Debug-mode protocol `v` with an 8-slot START|DATA code (windows
[225,375]), so two completed codes consume 16 raw durations. -/
def exProt10 : SPState :=
  (newProtocol { emptyState with debugMode := true } ['v'] 20 40 25 3).1

/-- Table of `exProt10` with the 8-slot code. -/
def exTable10 : SPState :=
  newCode exProt10 1 's' (SP_START ||| SP_DATA) [300, 300, 300, 300, 300, 300, 300, 300]

/-- `exTable10` after 16 matching durations: 16 raw durations counted, two
decoded characters. -/
def mid10 : SPState :=
  (parseList exTable10 (List.replicate 16 300)).1

/-- A debug-mode matcher deep inside an attempt: 12 decoded characters,
96 raw durations. -/
def exAbort : SPState :=
  { debugMode := true, protocols := [⟨1, ['v'], 20, 40, 25, 3⟩],
    codes := [⟨1, 3, 's', 1, [225], [375], 0, true⟩], seq := List.replicate 12 's',
    seq_codelength := 96, seq_protocol := some ⟨1, ['v'], 20, 40, 25, 3⟩,
    callbackAttached := true }

/-- The END code of `exTable1` as a candidate record. -/
def exCodeE : Code :=
  ⟨1, 4, 'e', 1, [3000], [5000], 0, true⟩

/-- The DATA code b of `exTable1` as a candidate record. -/
def exCodeB : Code :=
  ⟨1, 2, 'b', 1, [143], [237], 0, true⟩

set_option maxRecDepth 10000

theorem resetCodes_eq_map (cs : List Code) : resetCodes cs = cs.map coreOf :=
  rfl

theorem coreOf_idem (c : Code) : coreOf (coreOf c) = coreOf c :=
  rfl

theorem resetCodes_idem (cs : List Code) : resetCodes (resetCodes cs) = resetCodes cs := by
  induction cs with
  | nil => rfl
  | cons c cs ih =>
    simp only [resetCodes_eq_map, List.map_cons] at ih ⊢
    rw [coreOf_idem, ih]

theorem mem_resetCodes (cs : List Code) (c : Code) (h : c ∈ resetCodes cs) :
    c.cnt = 0 ∧ c.valid = true := by
  rw [resetCodes_eq_map] at h
  obtain ⟨a, -, rfl⟩ := List.mem_map.1 h
  exact ⟨rfl, rfl⟩

theorem coreOf_mem_resetCodes (cs : List Code) (c : Code) (h : c ∈ cs) :
    coreOf c ∈ resetCodes cs := by
  rw [resetCodes_eq_map]
  exact List.mem_map_of_mem _ h

theorem coreOf_fields (a b : Code) (h : coreOf a = coreOf b) :
    a.protId = b.protId ∧ a.type = b.type ∧ a.name = b.name ∧ a.length = b.length ∧
      a.minTime = b.minTime ∧ a.maxTime = b.maxTime := by
  cases a
  cases b
  simp only [coreOf, Code.mk.injEq] at h
  simp_all

theorem checkCode_retry_false_of_cnt0 (s l : Nat) (c : Code) (d : Nat) (h : c.cnt = 0) :
    (checkCode s l c d).2 = false := by
  unfold checkCode
  split_ifs <;> simp_all <;> split_ifs <;> simp_all

theorem checkCode_retry_false_of_seq_pos (s l : Nat) (c : Code) (d : Nat) (h : s ≠ 0) :
    (checkCode s l c d).2 = false := by
  unfold checkCode
  split_ifs <;> simp_all <;> split_ifs <;> simp_all

theorem scanCodes_reset (s l d : Nat) (cs : List Code) :
    resetCodes (scanCodes s l d cs).codes = resetCodes cs := by
  induction cs with
  | nil => rfl
  | cons c cs ih =>
    simp only [scanCodes]
    split_ifs <;> simp_all [resetCodes] <;> rfl

theorem scanCodes_found_core (s l d : Nat) (cs : List Code) (c1 : Code)
    (h : (scanCodes s l d cs).found = some c1) :
    ∃ c0 ∈ cs, coreOf c1 = coreOf c0 := by
  induction cs with
  | nil => simp [scanCodes] at h
  | cons c cs ih =>
    simp only [scanCodes] at h
    split_ifs at h with h1 h2 h3
    · simp only [Option.some.injEq] at h
      exact ⟨c, List.mem_cons_self c cs, by rw [← h]; rfl⟩
    · obtain ⟨c0, hm, he⟩ := ih h
      exact ⟨c0, List.mem_cons_of_mem c hm, he⟩
    · obtain ⟨c0, hm, he⟩ := ih h
      exact ⟨c0, List.mem_cons_of_mem c hm, he⟩
    · obtain ⟨c0, hm, he⟩ := ih h
      exact ⟨c0, List.mem_cons_of_mem c hm, he⟩

theorem scanCodes_mem_core (s l d : Nat) (cs : List Code) (c0 : Code) (h : c0 ∈ cs) :
    ∃ c1 ∈ (scanCodes s l d cs).codes, coreOf c1 = coreOf c0 := by
  induction cs with
  | nil => simp at h
  | cons c cs ih =>
    rcases List.mem_cons.1 h with rfl | hm
    · simp only [scanCodes]
      split_ifs <;>
        exact ⟨_, List.mem_cons_self _ _, rfl⟩
    · obtain ⟨c1, hc1, he⟩ := ih hm
      simp only [scanCodes]
      split_ifs with h1 h2 h3
      · exact ⟨c0, List.mem_cons_of_mem _ hm, rfl⟩
      · exact ⟨c1, List.mem_cons_of_mem _ hc1, he⟩
      · exact ⟨c1, List.mem_cons_of_mem _ hc1, he⟩
      · exact ⟨c1, List.mem_cons_of_mem _ hc1, he⟩

theorem scanCodes_codes_core (s l d : Nat) (cs : List Code) (c1 : Code)
    (h : c1 ∈ (scanCodes s l d cs).codes) :
    ∃ c0 ∈ cs, coreOf c1 = coreOf c0 := by
  induction cs with
  | nil => simp [scanCodes] at h
  | cons c cs ih =>
    simp only [scanCodes] at h
    split_ifs at h with h1 h2 h3
    · rcases List.mem_cons.1 h with rfl | hm
      · exact ⟨c, List.mem_cons_self c cs, rfl⟩
      · exact ⟨c1, List.mem_cons_of_mem c hm, rfl⟩
    · rcases List.mem_cons.1 h with rfl | hm
      · exact ⟨c, List.mem_cons_self c cs, rfl⟩
      · obtain ⟨c0, hm0, he⟩ := ih hm
        exact ⟨c0, List.mem_cons_of_mem c hm0, he⟩
    · rcases List.mem_cons.1 h with rfl | hm
      · exact ⟨c, List.mem_cons_self c cs, rfl⟩
      · obtain ⟨c0, hm0, he⟩ := ih hm
        exact ⟨c0, List.mem_cons_of_mem c hm0, he⟩
    · rcases List.mem_cons.1 h with rfl | hm
      · exact ⟨c1, List.mem_cons_self c1 cs, rfl⟩
      · obtain ⟨c0, hm0, he⟩ := ih hm
        exact ⟨c0, List.mem_cons_of_mem _ hm0, he⟩

theorem scanCodes_retry_false (s l d : Nat) (cs : List Code)
    (h : ∀ c ∈ cs, (checkCode s l c d).2 = false) :
    (scanCodes s l d cs).retry = false := by
  induction cs with
  | nil => rfl
  | cons c cs ih =>
    have hc := h c (List.mem_cons_self c cs)
    have hrest := ih (fun a ha => h a (List.mem_cons_of_mem c ha))
    simp only [scanCodes]
    split_ifs <;> simp_all

theorem scanCodes_retry_false_of_cnt0 (s l d : Nat) (cs : List Code)
    (h : ∀ c ∈ cs, c.cnt = 0) :
    (scanCodes s l d cs).retry = false :=
  scanCodes_retry_false s l d cs fun c hc =>
    checkCode_retry_false_of_cnt0 s l c d (h c hc)

theorem scanCodes_retry_false_of_seq_pos (s l d : Nat) (cs : List Code) (h : s ≠ 0) :
    (scanCodes s l d cs).retry = false :=
  scanCodes_retry_false s l d cs fun c _ =>
    checkCode_retry_false_of_seq_pos s l c d h

theorem scanCodes_nomatch (s l d : Nat) (cs : List Code)
    (h : ∀ c ∈ cs, c.valid = true → (checkCode s l c d).1 = false) :
    (scanCodes s l d cs).matched = false ∧ (scanCodes s l d cs).found = none := by
  induction cs with
  | nil => exact ⟨rfl, rfl⟩
  | cons c cs ih =>
    have hc := h c (List.mem_cons_self c cs)
    obtain ⟨hm, hf⟩ := ih (fun a ha => h a (List.mem_cons_of_mem c ha))
    simp only [scanCodes]
    split_ifs <;> simp_all

theorem parseBody_nomatch (recur : SPState → Nat → SPState × List (List Char))
    (st : SPState) (d : Nat) (hne : st.protocols ≠ [])
    (hm : (scanCodes st.seq.length (lockedIdOf st) d st.codes).matched = false)
    (hf : (scanCodes st.seq.length (lockedIdOf st) d st.codes).found = none)
    (hr : (scanCodes st.seq.length (lockedIdOf st) d st.codes).retry = false) :
    parseBody recur st d =
      (fullReset st,
       if st.debugMode = true ∧ 10 < st.seq.length then [diagChars st] else []) := by
  unfold parseBody
  rw [if_neg hne]
  simp only [hf, hm, hr, Bool.false_eq_true, if_false]
  simp only [fullReset, scanCodes_reset]

theorem parseBody_found_end (recur : SPState → Nat → SPState × List (List Char))
    (st : SPState) (d : Nat) (c : Code)
    (hne : st.protocols ≠ []) (hseq : st.seq ≠ [])
    (hf : (scanCodes st.seq.length (lockedIdOf st) d st.codes).found = some c)
    (hend : c.type &&& SP_END ≠ 0 ∨ st.seq.length + 1 = protMaxLen st) :
    parseBody recur st d =
      (fullReset st,
       if st.callbackAttached = true ∧ protMinLen st ≤ st.seq.length + 1 then
         [(protName st ++ ' ' :: (st.seq ++ [c.name])).take 63]
       else []) := by
  unfold parseBody
  rw [if_neg hne]
  simp only [hf]
  have hlen : (st.seq ++ [c.name]).length = st.seq.length + 1 := by simp
  have h1 : ¬((st.seq ++ [c.name]).length = 1) := by
    rw [hlen]
    intro hx
    exact hseq (List.length_eq_zero.1 (by omega))
  rw [if_neg h1, if_pos (by rw [hlen]; exact hend)]
  simp only [hlen, fullReset, resetCodes_idem, scanCodes_reset]

theorem parseBody_found_first (recur : SPState → Nat → SPState × List (List Char))
    (st : SPState) (d : Nat) (c : Code)
    (hne : st.protocols ≠ []) (hseq : st.seq = [])
    (hf : (scanCodes st.seq.length (lockedIdOf st) d st.codes).found = some c)
    (hstart : c.type &&& SP_START ≠ 0) :
    parseBody recur st d =
      ({ st with codes := resetCodes st.codes, seq := [c.name],
                 seq_codelength := (st.seq_codelength + 1) % 256,
                 seq_protocol := findProtId st.protocols c.protId }, []) := by
  unfold parseBody
  rw [if_neg hne]
  rw [hseq] at hf
  simp only [hseq, hf, List.nil_append, List.length_singleton, if_true]
  rw [if_neg hstart]
  simp only [scanCodes_reset, hseq]

theorem parseBody_found_mid (recur : SPState → Nat → SPState × List (List Char))
    (st : SPState) (d : Nat) (c : Code)
    (hne : st.protocols ≠ []) (hseq : st.seq ≠ [])
    (hf : (scanCodes st.seq.length (lockedIdOf st) d st.codes).found = some c)
    (hnoend : ¬(c.type &&& SP_END ≠ 0 ∨ st.seq.length + 1 = protMaxLen st))
    (h118 : st.seq.length + 1 ≠ MAX_SEQUENCE_LENGTH - 2) :
    parseBody recur st d =
      ({ st with codes := resetCodes st.codes, seq := st.seq ++ [c.name],
                 seq_codelength := (st.seq_codelength + 1) % 256 }, []) := by
  unfold parseBody
  rw [if_neg hne]
  simp only [hf]
  have hlen : (st.seq ++ [c.name]).length = st.seq.length + 1 := by simp
  have h1 : ¬((st.seq ++ [c.name]).length = 1) := by
    rw [hlen]
    intro hx
    exact hseq (List.length_eq_zero.1 (by omega))
  rw [if_neg h1, if_neg (by rw [hlen]; exact hnoend), if_neg (by rw [hlen]; exact h118)]
  simp only [scanCodes_reset]

theorem parseBody_matched_cont (recur : SPState → Nat → SPState × List (List Char))
    (st : SPState) (d : Nat) (hne : st.protocols ≠ [])
    (hf : (scanCodes st.seq.length (lockedIdOf st) d st.codes).found = none)
    (hm : (scanCodes st.seq.length (lockedIdOf st) d st.codes).matched = true) :
    parseBody recur st d =
      ({ st with codes := (scanCodes st.seq.length (lockedIdOf st) d st.codes).codes,
                 seq_codelength := (st.seq_codelength + 1) % 256 }, []) := by
  unfold parseBody
  rw [if_neg hne]
  simp only [hf, hm, if_true]

theorem parseBody_retry_false (st : SPState) (d : Nat)
    (hr : (scanCodes st.seq.length (lockedIdOf st) d st.codes).retry = false)
    (r1 r2 : SPState → Nat → SPState × List (List Char)) :
    parseBody r1 st d = parseBody r2 st d := by
  unfold parseBody
  simp only [hr, Bool.false_eq_true, if_false]

theorem parseBody_ext (st : SPState) (d : Nat)
    (r1 r2 : SPState → Nat → SPState × List (List Char))
    (h : ∀ st1, (∀ c ∈ st1.codes, c.cnt = 0) → r1 st1 d = r2 st1 d) :
    parseBody r1 st d = parseBody r2 st d := by
  unfold parseBody
  by_cases hp : st.protocols = []
  · rw [if_pos hp, if_pos hp]
  · rw [if_neg hp, if_neg hp]
    cases hfound : (scanCodes st.seq.length (lockedIdOf st) d st.codes).found with
    | some c => simp only [hfound]
    | none =>
      simp only [hfound]
      by_cases hm : (scanCodes st.seq.length (lockedIdOf st) d st.codes).matched = true
      · simp only [hm, if_true]
      · simp only [Bool.not_eq_true] at hm
        simp only [hm, Bool.false_eq_true, if_false]
        by_cases hr : (scanCodes st.seq.length (lockedIdOf st) d st.codes).retry = true
        · simp only [hr, if_true]
          rw [h _ (fun c hc => (mem_resetCodes _ c hc).1)]
        · simp only [Bool.not_eq_true] at hr
          simp only [hr, Bool.false_eq_true, if_false]

theorem parseFuel_succ (n : Nat) (st : SPState) (d : Nat) :
    parseFuel (n + 1) st d = parseBody (parseFuel n) st d :=
  rfl

theorem parseFuel_cnt0 (m n : Nat) (st : SPState) (d : Nat)
    (h : ∀ c ∈ st.codes, c.cnt = 0) :
    parseFuel (m + 1) st d = parseFuel (n + 1) st d := by
  rw [parseFuel_succ, parseFuel_succ]
  exact parseBody_retry_false st d (scanCodes_retry_false_of_cnt0 _ _ _ _ h) _ _

theorem parseFuel_fresh_no_emit (m : Nat) (st : SPState) (d : Nat)
    (hseq : st.seq = []) (h0 : ∀ c ∈ st.codes, c.cnt = 0) :
    (parseFuel (m + 1) st d).2 = [] := by
  rw [parseFuel_succ]
  unfold parseBody
  split
  · rfl
  · cases hfound : (scanCodes st.seq.length (lockedIdOf st) d st.codes).found with
    | some c =>
      rw [hseq] at hfound
      simp only [hseq, hfound, List.nil_append, List.length_singleton, if_true]
      split <;> rfl
    | none =>
      rw [hseq] at hfound
      have h0b : ∀ c ∈ st.codes, c.cnt = 0 := h0
      simp only [hseq, hfound]
      split
      · rfl
      · rw [scanCodes_retry_false_of_cnt0 _ _ _ _ h0b]
        simp [hseq]

theorem checkCode_accept_iff (s l : Nat) (c : Code) (d : Nat)
    (helig : (s = 0 ∧ c.type &&& SP_START ≠ 0) ∨
      (0 < s ∧ c.protId = l ∧ c.type &&& SP_ANY ≠ 0)) :
    (checkCode s l c d).1 = true ↔
      (c.type &&& SP_END ≠ 0 ∧ c.cnt + 1 = c.length ∧ c.minTime.getD c.cnt 0 < d) ∨
      (c.minTime.getD c.cnt 0 ≤ d ∧ d ≤ c.maxTime.getD c.cnt 0) := by
  have h1 : ¬(s = 0 ∧ c.type &&& SP_START = 0) := by
    rcases helig with ⟨h0, hst⟩ | ⟨hpos, -, -⟩
    · exact fun hx => hst hx.2
    · exact fun hx => by omega
  have h2 : ¬(0 < s ∧ c.protId ≠ l) := by
    rcases helig with ⟨h0, -⟩ | ⟨-, hpid, -⟩
    · exact fun hx => by omega
    · exact fun hx => hx.2 hpid
  have h3 : ¬(0 < s ∧ c.type &&& SP_ANY = 0) := by
    rcases helig with ⟨h0, -⟩ | ⟨-, -, hany⟩
    · exact fun hx => by omega
    · exact fun hx => hany hx.2
  unfold checkCode
  rw [if_neg h1, if_neg h2, if_neg h3]
  split_ifs with h4 h5
  · simp only [true_iff]
    exact Or.inl h4
  · constructor
    · intro hx
      simp at hx
    · rintro (hx | hw)
      · exact absurd hx h4
      · exact absurd hw (by omega)
  · simp only [true_iff]
    exact Or.inr (by omega)

/-- Claim C2: for an eligible live candidate code, if the expected slot is
the last slot of an END-capable code, any duration strictly above that
slot's minTime is accepted (no upper bound); otherwise the duration is
accepted exactly when it lies in the inclusive window [minTime, maxTime]. -/
theorem c2_slot_window (s l : Nat) (c : Code) (d : Nat)
    (helig : (s = 0 ∧ c.type &&& SP_START ≠ 0) ∨
      (0 < s ∧ c.protId = l ∧ c.type &&& SP_ANY ≠ 0)) :
    ((c.type &&& SP_END ≠ 0 ∧ c.cnt + 1 = c.length) →
        c.minTime.getD c.cnt 0 < d → (checkCode s l c d).1 = true) ∧
    (¬(c.type &&& SP_END ≠ 0 ∧ c.cnt + 1 = c.length) →
        ((checkCode s l c d).1 = true ↔
          c.minTime.getD c.cnt 0 ≤ d ∧ d ≤ c.maxTime.getD c.cnt 0)) := by
  have hiff := checkCode_accept_iff s l c d helig
  constructor
  · rintro ⟨he, hl⟩ hd
    exact hiff.2 (Or.inl ⟨he, hl, hd⟩)
  · intro hnot
    rw [hiff]
    constructor
    · rintro (⟨he, hl, -⟩ | hw)
      · exact absurd ⟨he, hl⟩ hnot
      · exact hw
    · exact Or.inr

/-- Witness for C2: the END code of the example table accepts 3001 at its
last slot, and the DATA code b accepts exactly its minTime. -/
theorem c2_witness :
    (checkCode 1 1 exCodeE 3001).1 = true ∧ (checkCode 1 1 exCodeB 143).1 = true :=
  ⟨(c2_slot_window 1 1 exCodeE 3001 (Or.inr ⟨by decide, by decide, by decide⟩)).1
      ⟨by decide, by decide⟩ (by decide),
   ((c2_slot_window 1 1 exCodeB 143 (Or.inr ⟨by decide, by decide, by decide⟩)).2
      (by decide)).2 ⟨by decide, by decide⟩⟩

/-- Claim C6: the self-re-invocation of parse happens at most once per
duration and never nests deeper: after the full reset that precedes the
retry every code's slot counter is zero, so the retry flag cannot be set
again, and fuel 2 already gives the exact fixpoint of the recursion. -/
theorem c6_retry_once :
    (∀ (s l d : Nat) (cs : List Code), (scanCodes s l d (resetCodes cs)).retry = false) ∧
    (∀ (n : Nat) (st : SPState) (d : Nat), parseFuel (n + 2) st d = parseFuel 2 st d) := by
  constructor
  · intro s l d cs
    exact scanCodes_retry_false_of_cnt0 s l d _ (fun c hc => (mem_resetCodes cs c hc).1)
  · intro n st d
    show parseBody (parseFuel (n + 1)) st d = parseBody (parseFuel 1) st d
    apply parseBody_ext
    intro st1 h1
    exact parseFuel_cnt0 n 0 st1 d h1

theorem composeChars_eq_flatten (cs : List Code) (pid : Nat) (s : List Char) (len : Nat) :
    composeChars cs pid s len =
      ((s.take len).map (fun ch =>
          match findCode cs pid ch with
          | some c => midpoints c
          | none => [])).flatten := by
  induction s generalizing len with
  | nil => simp [composeChars]
  | cons ch s ih =>
    cases len with
    | zero => simp [composeChars]
    | succ len =>
      simp only [composeChars, List.take_succ_cons, List.map_cons, List.flatten_cons]
      cases findCode cs pid ch <;> simp [ih]

/-- Claim C7 (amended): for a resolvable protocol name, compose appends,
for each of the first maxLen CHARACTERS after the space (not the first
maxLen durations), all slot midpoints of the resolved code, silently
skipping unresolvable characters, and terminates with a zero sentinel. -/
theorem c7_compose_amended (st : SPState) (sequence : List Char) (len : Nat) (p : Protocol)
    (hp : findProtName st.protocols (protnameOf sequence) = some p) :
    compose st sequence len =
      some ((((afterSpace sequence).take len).map (fun ch =>
          match findCode st.codes p.id ch with
          | some c => midpoints c
          | none => [])).flatten ++ [0]) := by
  unfold compose
  rw [hp]
  dsimp only
  rw [composeChars_eq_flatten]

/-- Counterexample for C7 as stated: with maxLen = 1, compose writes the
two midpoints of the two-slot code x and the sentinel (three entries, not
at most one duration plus the sentinel): len bounds characters, not
durations. -/
theorem c7_counterexample :
    compose exTable7 ['q', ' ', 'x', 'x'] 1 = some [100, 200, 0] ∧
    ¬([100, 200, 0] : List Nat).length ≤ 2 := by decide

/-- Witness for C7 (amended): both characters are consumed with len = 2,
each contributing its full midpoint list. -/
theorem c7_witness :
    compose exTable7 ['q', ' ', 'x', 'x'] 2 = some [100, 200, 100, 200, 0] := by
  have h := c7_compose_amended exTable7 ['q', ' ', 'x', 'x'] 2 ⟨1, ['q'], 1, 10, 0, 3⟩
    (by decide)
  exact h.trans (by decide)

theorem mkSlot_no_overflow (tol T : Nat) (hlow : T * tol / 100 ≤ T)
    (hhigh : T + T * tol / 100 < 65536) :
    mkSlot tol T = (T - T * tol / 100, T + T * tol / 100) := by
  unfold mkSlot
  generalize hR : T * tol / 100 = r at hlow hhigh ⊢
  have h1 : r % 65536 = r := Nat.mod_eq_of_lt (by omega)
  rw [h1]
  refine Prod.ext ?_ ?_ <;> simp only [] <;> omega

/-- Claim C8 (amended): the stored window of a registered slot equals
[T - floor(T*p/100), T + floor(T*p/100)] with integer truncation whenever
the radius does not exceed T and T plus the radius fits in the 16-bit
CodeTime type; outside that range the uint16 narrowing wraps the stored
bounds. -/
theorem c8_window_amended (st : SPState) (protId : Nat) (ch : Char) (ty : Nat)
    (ts : List Nat) (p : Protocol) (i T : Nat)
    (hp : findProtId st.protocols protId = some p)
    (hlen : i < (filteredTimes ts).length)
    (hT : (filteredTimes ts).getD i 0 = T)
    (hlow : T * p.tolerance / 100 ≤ T)
    (hhigh : T + T * p.tolerance / 100 < 65536) :
    ∃ c, (newCode st protId ch ty ts).codes = st.codes ++ [c] ∧
      c.minTime.getD i 0 = T - T * p.tolerance / 100 ∧
      c.maxTime.getD i 0 = T + T * p.tolerance / 100 := by
  unfold newCode
  rw [hp]
  refine ⟨_, rfl, ?_, ?_⟩ <;>
  · simp only [List.getD_eq_getElem?_getD, List.getElem?_map]
    rw [List.getElem?_eq_getElem hlen]
    have hTi : (filteredTimes ts)[i] = T := by
      rw [← hT, List.getD_eq_getElem _ _ hlen]
    simp [hTi, mkSlot_no_overflow p.tolerance T hlow hhigh]

/-- Counterexample for C8 as stated: base time 60000 with tolerance 25
stores maxTime 9464 = 75000 mod 65536, not 75000: the claim fails for
representable values whose window leaves the 16-bit range. -/
theorem c8_counterexample :
    ((newCode exProt8 1 'w' SP_DATA [60000]).codes.getD 0 code0).maxTime = [9464] ∧
    (9464 : Nat) ≠ 60000 + 60000 * 25 / 100 := by decide

/-- Witness for C8 (amended): base time 400 with tolerance 25 stores the
window [300, 500]. -/
theorem c8_witness :
    ∃ c, (newCode exProt8 1 'y' SP_DATA [400]).codes = exProt8.codes ++ [c] ∧
      c.minTime.getD 0 0 = 300 ∧ c.maxTime.getD 0 0 = 500 := by
  have h := c8_window_amended exProt8 1 'y' SP_DATA [400] ⟨1, ['r'], 1, 10, 25, 3⟩ 0 400
    (by decide) (by decide) (by decide) (by decide) (by decide)
  exact h

/-- Claim C9 (amended): invalid bounds return id 0 with the table
unchanged; valid bounds append exactly one protocol and return the new
count reduced modulo 256, which is non-zero as long as fewer than 255
protocols were already registered — at the 256th registration the uint8
return value wraps to 0 although the protocol is still appended. -/
theorem c9_register_amended (st : SPState) (nm : List Char) (minLen maxLen tol rep : Nat) :
    (minLen > maxLen ∨ MAX_SEQUENCE_LENGTH ≤ maxLen →
        newProtocol st nm minLen maxLen tol rep = (st, 0)) ∧
    (minLen ≤ maxLen → maxLen < MAX_SEQUENCE_LENGTH →
        (∃ p, (newProtocol st nm minLen maxLen tol rep).1.protocols = st.protocols ++ [p] ∧
            p.id = (st.protocols.length + 1) % 256) ∧
        (newProtocol st nm minLen maxLen tol rep).2 = (st.protocols.length + 1) % 256 ∧
        (st.protocols.length + 1 < 256 → (newProtocol st nm minLen maxLen tol rep).2 ≠ 0)) := by
  constructor
  · intro h
    unfold newProtocol
    rw [if_pos h]
  · intro h1 h2
    unfold newProtocol
    rw [if_neg (by omega)]
    refine ⟨⟨_, rfl, rfl⟩, rfl, ?_⟩
    intro hlt
    simp only []
    rw [Nat.mod_eq_of_lt hlt]
    omega

/-- Counterexample for C9 as stated: the 256th registration with valid
bounds appends a protocol but returns id 0 (uint8 wrap), so the claim
"returns a non-zero id" fails. -/
theorem c9_counterexample :
    ((1 : Nat) ≤ 1 ∧ (1 : Nat) < MAX_SEQUENCE_LENGTH) ∧
    (newProtocol (regMany 255 emptyState) ['x'] 1 1 25 3).2 = 0 ∧
    (newProtocol (regMany 255 emptyState) ['x'] 1 1 25 3).1.protocols.length =
      (regMany 255 emptyState).protocols.length + 1 := by decide

/-- Witness for C9 (amended): an invalid registration returns 0 unchanged;
a valid first registration returns a non-zero id. -/
theorem c9_witness :
    newProtocol emptyState ['x'] 5 3 25 3 = (emptyState, 0) ∧
    (newProtocol emptyState ['x'] 1 1 25 3).2 ≠ 0 :=
  ⟨(c9_register_amended emptyState ['x'] 5 3 25 3).1 (by decide),
   ((c9_register_amended emptyState ['x'] 1 1 25 3).2 (by decide) (by decide)).2.2 (by decide)⟩

/-- Claim C10 (amended): on an aborting duration (no live candidate
accepts), the debug diagnostic "*<rawDurationCount>,<decodedCharCount>" is
emitted if and only if debug mode is on and the attempt had accumulated
more than 10 DECODED CHARACTERS (the code tests `_seq_length`, the decoded
character count, not the raw duration count). -/
theorem c10_diagnostic_amended (st : SPState) (d : Nat)
    (hne : st.protocols ≠ [])
    (hnm : ∀ c ∈ st.codes, c.valid = true →
        (checkCode st.seq.length (lockedIdOf st) c d).1 = false) :
    (parse st d).2 =
      if st.debugMode = true ∧ 10 < st.seq.length then [diagChars st] else [] := by
  have hsc := scanCodes_nomatch st.seq.length (lockedIdOf st) d st.codes hnm
  show (parseBody (parseFuel 1) st d).2 = _
  unfold parseBody
  rw [if_neg hne]
  simp only [hsc.2, hsc.1, Bool.false_eq_true, if_false]
  by_cases hr : (scanCodes st.seq.length (lockedIdOf st) d st.codes).retry = true
  · simp only [hr, if_true]
    rw [parseFuel_fresh_no_emit 0 _ d rfl (fun c hc => (mem_resetCodes _ c hc).1)]
    simp
  · simp only [Bool.not_eq_true] at hr
    simp only [hr, Bool.false_eq_true, if_false]

/-- Counterexample for C10 as stated: an abort after 16 raw durations but
only 2 decoded characters, in debug mode, emits nothing, although the
claim ("iff more than 10 raw durations") requires a diagnostic. -/
theorem c10_counterexample :
    mid10.debugMode = true ∧ mid10.seq_codelength = 16 ∧ 10 < mid10.seq_codelength ∧
    (∀ c ∈ mid10.codes, c.valid = true →
        (checkCode mid10.seq.length (lockedIdOf mid10) c 10000).1 = false) ∧
    (parse mid10 10000).2 = [] := by decide

/-- Witness for C10 (amended): an abort after 12 decoded characters and 96
raw durations in debug mode emits exactly the diagnostic token "*96,12". -/
theorem c10_witness : (parse exAbort 10000).2 = [['*', '9', '6', ',', '1', '2']] := by
  have h := c10_diagnostic_amended exAbort 10000 (by decide) (by decide)
  exact h.trans (by decide)

/-- Claim C4: processing a duration that matches no live candidate, while a
sequence is in progress, emits nothing but possibly a debug diagnostic
(every emitted string starts with the asterisk), fully resets the matcher
to IDLE, and every subsequent duration sequence is processed exactly as
from a fresh start. -/
theorem c4_abort_recovery (st : SPState) (d : Nat)
    (hne : st.protocols ≠ [])
    (hseq : st.seq ≠ [])
    (hnm : ∀ c ∈ st.codes, c.valid = true →
        (checkCode st.seq.length (lockedIdOf st) c d).1 = false) :
    (parse st d).1 = fullReset st ∧
    (∀ e ∈ (parse st d).2, e.head? = some '*') ∧
    (∀ c ∈ (parse st d).1.codes, c.cnt = 0 ∧ c.valid = true) ∧
    (∀ ds, parseList (parse st d).1 ds = parseList (fullReset st) ds) := by
  have hsc := scanCodes_nomatch st.seq.length (lockedIdOf st) d st.codes hnm
  have hr : (scanCodes st.seq.length (lockedIdOf st) d st.codes).retry = false :=
    scanCodes_retry_false_of_seq_pos _ _ _ _ (fun h0 => hseq (List.length_eq_zero.1 h0))
  have hp : parse st d =
      (fullReset st,
       if st.debugMode = true ∧ 10 < st.seq.length then [diagChars st] else []) :=
    parseBody_nomatch (parseFuel 1) st d hne hsc.1 hsc.2 hr
  refine ⟨by rw [hp], ?_, ?_, ?_⟩
  · intro e he
    rw [hp] at he
    by_cases hc : st.debugMode = true ∧ 10 < st.seq.length
    · rw [if_pos hc] at he
      rcases List.mem_singleton.1 he with rfl
      rfl
    · rw [if_neg hc] at he
      exact absurd he (List.not_mem_nil e)
  · intro c hc
    rw [hp] at hc
    exact mem_resetCodes st.codes c hc
  · intro ds
    rw [hp]

/-- Witness for C4: the example matcher mid-sequence aborts on 10000 and
ends in the fully reset IDLE state with no emission. -/
theorem c4_witness :
    (parse stMid1 500).1 = fullReset stMid1 ∧ (parse stMid1 500).2 = [] := by
  have h := c4_abort_recovery stMid1 500 (by decide) (by decide) (by decide)
  exact ⟨h.1, by decide⟩

/-- Claim C1 (amended): when a code completes while the sequence already
holds at least one character, and the completing code carries END or the
new sequence length equals the locked protocol's maxCodeLen, the attempt
ends with a full reset to IDLE, and the string
"<protocolName> <codeCharacters>" TRUNCATED TO 63 CHARACTERS (snprintf
into a 64-byte buffer) is emitted if and only if a callback is attached
and the sequence length is at least the locked protocol's minCodeLen. -/
theorem c1_complete_emit_amended (st : SPState) (d : Nat) (c : Code)
    (hne : st.protocols ≠ [])
    (hseq : st.seq ≠ [])
    (hfound : (scanCodes st.seq.length (lockedIdOf st) d st.codes).found = some c)
    (hend : c.type &&& SP_END ≠ 0 ∨ st.seq.length + 1 = protMaxLen st) :
    parse st d =
      (fullReset st,
       if st.callbackAttached = true ∧ protMinLen st ≤ st.seq.length + 1 then
         [(protName st ++ ' ' :: (st.seq ++ [c.name])).take 63]
       else []) :=
  parseBody_found_end (parseFuel 1) st d c hne hseq hfound hend

/-- Counterexample for C1 as stated: a 71-character sequence of protocol p
is emitted as "p " plus only 61 characters — the 64-byte snprintf buffer
truncates the text, so the emitted string is not
"<protocolName> <codeCharacters>". -/
theorem c1_counterexample :
    (parseList exTableT (List.replicate 70 100 ++ [4001])).2 =
      [('p' :: ' ' :: List.replicate 61 'a')] ∧
    ('p' :: ' ' :: List.replicate 61 'a') ≠
      ('p' :: ' ' :: (List.replicate 70 'a' ++ ['e'])) := by decide

/-- Witness for C1 (amended): completing the END code after the start code
emits "p se" and resets to IDLE. -/
theorem c1_witness :
    parse stMid1 4001 = (fullReset stMid1, [['p', ' ', 's', 'e']]) := by
  have h := c1_complete_emit_amended stMid1 4001 ⟨1, 4, 'e', 1, [3000], [5000], 1, true⟩
    (by decide) (by decide) (by decide) (by decide)
  exact h.trans (by decide)

theorem resetCodes_protId_sub (cs : List Code) :
    ∀ c1 ∈ resetCodes cs, ∃ c0 ∈ cs, c1.protId = c0.protId := by
  intro c1 hc1
  rw [resetCodes_eq_map] at hc1
  obtain ⟨c0, h0, rfl⟩ := List.mem_map.1 hc1
  exact ⟨c0, h0, rfl⟩

theorem scanCodes_protId_sub (s l d : Nat) (cs : List Code) :
    ∀ c1 ∈ (scanCodes s l d cs).codes, ∃ c0 ∈ cs, c1.protId = c0.protId := by
  intro c1 hc1
  obtain ⟨c0, h0, hcore⟩ := scanCodes_codes_core s l d cs c1 hc1
  exact ⟨c0, h0, (coreOf_fields _ _ hcore).1⟩

theorem WF_after_reset_scan (st : SPState) (s l d : Nat) (hwf : WF st) (c1 : Code)
    (hc1 : c1 ∈ resetCodes (scanCodes s l d st.codes).codes) :
    (findProtId st.protocols c1.protId).isSome = true := by
  obtain ⟨c2, h2, he2⟩ := resetCodes_protId_sub _ c1 hc1
  obtain ⟨c0, h0, he0⟩ := scanCodes_protId_sub s l d _ c2 h2
  rw [he2, he0]
  exact hwf c0 h0

theorem head?_append_singleton (l : List Char) (x : Char) (h : l ≠ []) :
    (l ++ [x]).head? = l.head? := by
  cases l with
  | nil => exact absurd rfl h
  | cons a l => rfl

theorem parseFuel_preserves (fuel : Nat) :
    ∀ (st : SPState) (d : Nat), WF st → Inv st →
      Inv (parseFuel fuel st d).1 ∧ WF (parseFuel fuel st d).1 := by
  induction fuel with
  | zero =>
    intro st d hwf hinv
    exact ⟨hinv, hwf⟩
  | succ fuel ih =>
    intro st d hwf hinv
    rw [parseFuel_succ]
    unfold parseBody
    by_cases hp : st.protocols = []
    · rw [if_pos hp]
      exact ⟨hinv, hwf⟩
    · rw [if_neg hp]
      cases hfound : (scanCodes st.seq.length (lockedIdOf st) d st.codes).found with
      | some c =>
        obtain ⟨c0, hc0mem, hcore⟩ := scanCodes_found_core _ _ _ _ c hfound
        obtain ⟨hpid, hty, hnm, -⟩ := coreOf_fields _ _ hcore
        simp only [hfound]
        by_cases h1 : (st.seq ++ [c.name]).length = 1
        · rw [if_pos h1]
          by_cases hstart : c.type &&& SP_START = 0
          · rw [if_pos hstart]
            refine ⟨Or.inl rfl, ?_⟩
            intro c1 hc1
            have hc1x : c1 ∈ resetCodes (resetCodes
                (scanCodes st.seq.length (lockedIdOf st) d st.codes).codes) := hc1
            rw [resetCodes_idem] at hc1x
            exact WF_after_reset_scan st _ _ d hwf c1 hc1x
          · rw [if_neg hstart]
            have hseq0 : st.seq = [] := by
              have hx : st.seq.length + 1 = 1 := by
                simpa using h1
              exact List.length_eq_zero.1 (by omega)
            constructor
            · right
              refine ⟨coreOf c0, ?_, ?_, ?_, ?_, ?_⟩
              · have hmm : coreOf c0 ∈ resetCodes st.codes := coreOf_mem_resetCodes _ _ hc0mem
                rw [← scanCodes_reset st.seq.length (lockedIdOf st) d st.codes] at hmm
                exact hmm
              · show c0.type &&& SP_START ≠ 0
                rw [← hty]
                exact hstart
              · show (st.seq ++ [c.name]).head? = some c0.name
                rw [hseq0]
                show some c.name = some c0.name
                rw [hnm]
              · show (findProtId st.protocols c.protId).isSome = true
                rw [hpid]
                exact hwf c0 hc0mem
              · show findProtId st.protocols c.protId = findProtId st.protocols c0.protId
                rw [hpid]
            · intro c1 hc1
              exact WF_after_reset_scan st _ _ d hwf c1 hc1
        · rw [if_neg h1]
          by_cases hend : c.type &&& SP_END ≠ 0 ∨ (st.seq ++ [c.name]).length = protMaxLen st
          · rw [if_pos hend]
            refine ⟨Or.inl rfl, ?_⟩
            intro c1 hc1
            have hc1x : c1 ∈ resetCodes (resetCodes
                (scanCodes st.seq.length (lockedIdOf st) d st.codes).codes) := hc1
            rw [resetCodes_idem] at hc1x
            exact WF_after_reset_scan st _ _ d hwf c1 hc1x
          · rw [if_neg hend]
            by_cases h118 : (st.seq ++ [c.name]).length = MAX_SEQUENCE_LENGTH - 2
            · rw [if_pos h118]
              refine ⟨Or.inl rfl, ?_⟩
              intro c1 hc1
              have hc1x : c1 ∈ resetCodes (resetCodes
                  (scanCodes st.seq.length (lockedIdOf st) d st.codes).codes) := hc1
              rw [resetCodes_idem] at hc1x
              exact WF_after_reset_scan st _ _ d hwf c1 hc1x
            · rw [if_neg h118]
              have hseqne : st.seq ≠ [] := by
                intro hx
                apply h1
                rw [hx]
                rfl
              rcases hinv with hL | ⟨cc, hccmem, hccty, hcchd, hccsome, hccprot⟩
              · exact absurd hL hseqne
              constructor
              · right
                refine ⟨coreOf cc, ?_, ?_, ?_, ?_, ?_⟩
                · have hmm : coreOf cc ∈ resetCodes st.codes := coreOf_mem_resetCodes _ _ hccmem
                  rw [← scanCodes_reset st.seq.length (lockedIdOf st) d st.codes] at hmm
                  exact hmm
                · show cc.type &&& SP_START ≠ 0
                  exact hccty
                · show (st.seq ++ [c.name]).head? = some cc.name
                  rw [head?_append_singleton _ _ hseqne]
                  exact hcchd
                · show st.seq_protocol.isSome = true
                  exact hccsome
                · show st.seq_protocol = findProtId st.protocols cc.protId
                  exact hccprot
              · intro c1 hc1
                exact WF_after_reset_scan st _ _ d hwf c1 hc1
      | none =>
        simp only [hfound]
        by_cases hm : (scanCodes st.seq.length (lockedIdOf st) d st.codes).matched = true
        · rw [if_pos hm]
          constructor
          · rcases hinv with hL | ⟨cc, hccmem, hccty, hcchd, hccsome, hccprot⟩
            · exact Or.inl hL
            · right
              obtain ⟨c1, hc1mem, hc1core⟩ :=
                scanCodes_mem_core st.seq.length (lockedIdOf st) d st.codes cc hccmem
              obtain ⟨hq1, hq2, hq3, -⟩ := coreOf_fields _ _ hc1core
              refine ⟨c1, hc1mem, ?_, ?_, hccsome, ?_⟩
              · rw [hq2]
                exact hccty
              · show st.seq.head? = some c1.name
                rw [hq3]
                exact hcchd
              · show st.seq_protocol = findProtId st.protocols c1.protId
                rw [hq1]
                exact hccprot
          · intro c1 hc1
            obtain ⟨c0, h0, he⟩ :=
              scanCodes_protId_sub st.seq.length (lockedIdOf st) d st.codes c1 hc1
            rw [he]
            exact hwf c0 h0
        · simp only [Bool.not_eq_true] at hm
          simp only [hm, Bool.false_eq_true, if_false]
          by_cases hr : (scanCodes st.seq.length (lockedIdOf st) d st.codes).retry = true
          · simp only [hr, if_true]
            have hwf1 : WF (fullReset { st with
                codes := (scanCodes st.seq.length (lockedIdOf st) d st.codes).codes }) := by
              intro c1 hc1
              exact WF_after_reset_scan st _ _ d hwf c1 hc1
            exact ih (fullReset { st with
              codes := (scanCodes st.seq.length (lockedIdOf st) d st.codes).codes }) d hwf1
              (Or.inl rfl)
          · simp only [Bool.not_eq_true] at hr
            simp only [hr, Bool.false_eq_true, if_false]
            refine ⟨Or.inl rfl, ?_⟩
            intro c1 hc1
            exact WF_after_reset_scan st _ _ d hwf c1 hc1

/-- Claim C3: when the sequence is empty only START-capable codes can
advance (checkCode rejects all others); when the sequence is non-empty the
protocol lock is non-null and points at the protocol of the attempt's
first completed code, only codes of the locked protocol carrying DATA or
END can advance; and parse preserves this invariant. -/
theorem c3_gate_invariant (st : SPState) (d : Nat) (hwf : WF st) (hinv : Inv st) :
    Inv (parse st d).1 ∧
    (st.seq = [] → ∀ c : Code, c.type &&& SP_START = 0 →
        (checkCode st.seq.length (lockedIdOf st) c d).1 = false) ∧
    (∀ p : Protocol, st.seq ≠ [] → st.seq_protocol = some p →
        ∀ c : Code, c.protId ≠ p.id ∨ c.type &&& SP_ANY = 0 →
        (checkCode st.seq.length (lockedIdOf st) c d).1 = false) := by
  refine ⟨(parseFuel_preserves 2 st d hwf hinv).1, ?_, ?_⟩
  · intro hseq c hc
    unfold checkCode
    rw [if_pos ⟨by rw [hseq]; rfl, hc⟩]
  · intro p hseq hprot c hc
    have hlen : 0 < st.seq.length := List.length_pos.2 hseq
    have hlid : lockedIdOf st = p.id := by
      rw [lockedIdOf, hprot]
    have hne1 : ¬(st.seq.length = 0 ∧ c.type &&& SP_START = 0) := fun hx => by omega
    unfold checkCode
    rw [if_neg hne1]
    rcases hc with hpidne | hany
    · rw [if_pos ⟨hlen, by rw [hlid]; exact hpidne⟩]
    · by_cases hpe : c.protId = lockedIdOf st
      · rw [if_neg (fun hx => hx.2 hpe), if_pos ⟨hlen, hany⟩]
      · rw [if_pos ⟨hlen, hpe⟩]

/-- Witness for C3: the invariant holds after the example matcher, locked
to protocol p, processes a further data duration. -/
theorem c3_witness :
    Inv (parse stMid1 160).1 ∧ Inv stMid1 ∧ WF stMid1 := by
  have h := c3_gate_invariant stMid1 160 (by unfold WF; decide) (by unfold Inv; decide)
  exact ⟨h.1, by unfold Inv; decide, by unfold WF; decide⟩

theorem checkCode_seq0_locked (l1 l2 : Nat) (c : Code) (d : Nat) :
    checkCode 0 l1 c d = checkCode 0 l2 c d := by
  unfold checkCode
  by_cases h1 : (0 : Nat) = 0 ∧ c.type &&& SP_START = 0
  · rw [if_pos h1, if_pos h1]
  · rw [if_neg h1, if_neg h1]
    have h2a : ¬((0 : Nat) < 0 ∧ c.protId ≠ l1) := fun hx => absurd hx.1 (by omega)
    have h2b : ¬((0 : Nat) < 0 ∧ c.protId ≠ l2) := fun hx => absurd hx.1 (by omega)
    rw [if_neg h2a, if_neg h2b]

theorem scanCodes_seq0_locked (l1 l2 d : Nat) (cs : List Code) :
    scanCodes 0 l1 d cs = scanCodes 0 l2 d cs := by
  induction cs with
  | nil => rfl
  | cons c cs ih =>
    simp only [scanCodes, checkCode_seq0_locked l1 l2 c d, ih]

theorem decodesBlock_single (s l : Nat) (ch : Char) (ty pid : Nat) (cs : List Code)
    (d : Nat) (h : decodesBlock s l ch ty pid cs [d] = true) :
    ∃ c1, (scanCodes s l d cs).found = some c1 ∧
      c1.name = ch ∧ c1.type = ty ∧ c1.protId = pid := by
  unfold decodesBlock at h
  cases hf : (scanCodes s l d cs).found with
  | none =>
    simp only [hf] at h
    exact absurd h (by simp)
  | some c1 =>
    simp only [hf, Bool.and_eq_true, beq_iff_eq] at h
    exact ⟨c1, rfl, h.1.1, h.1.2, h.2⟩

theorem decodesBlock_cons (s l : Nat) (ch : Char) (ty pid : Nat) (cs : List Code)
    (d : Nat) (ds : List Nat) (hds : ds ≠ [])
    (h : decodesBlock s l ch ty pid cs (d :: ds) = true) :
    (scanCodes s l d cs).found = none ∧ (scanCodes s l d cs).matched = true ∧
      decodesBlock s l ch ty pid (scanCodes s l d cs).codes ds = true := by
  cases ds with
  | nil => exact absurd rfl hds
  | cons d2 ds2 =>
    unfold decodesBlock at h
    cases hf : (scanCodes s l d cs).found with
    | some c1 =>
      simp only [hf] at h
      exact absurd h (by simp)
    | none =>
      simp only [hf, Bool.and_eq_true] at h
      exact ⟨rfl, h.1, h.2⟩

theorem parseList_append (st : SPState) (xs ys : List Nat) (hxs : ∀ x ∈ xs, x ≠ 0) :
    parseList st (xs ++ ys) =
      ((parseList (parseList st xs).1 ys).1,
        (parseList st xs).2 ++ (parseList (parseList st xs).1 ys).2) := by
  induction xs generalizing st with
  | nil => simp [parseList]
  | cons x xs ih =>
    have hx : x ≠ 0 := hxs x (List.mem_cons_self _ _)
    simp only [List.cons_append, parseList]
    rw [if_neg hx, if_neg hx]
    simp only [List.append_eq]
    rw [ih (parse st x).1 (fun a ha => hxs a (List.mem_cons_of_mem _ ha))]
    simp [List.append_assoc]

theorem findCode_protId_name (cs : List Code) (pid : Nat) (ch : Char) (c : Code)
    (h : findCode cs pid ch = some c) : c.protId = pid ∧ c.name = ch := by
  have hp := List.find?_some h
  simp only [Bool.and_eq_true, beq_iff_eq] at hp
  exact hp

theorem takeWhile_no_space_self (nm : List Char) (h : ∀ a ∈ nm, a ≠ ' ') :
    nm.takeWhile (fun ch => ch ≠ ' ') = nm := by
  induction nm with
  | nil => rfl
  | cons a nm ih =>
    have ha : a ≠ ' ' := h a (List.mem_cons_self _ _)
    simp only [List.takeWhile_cons]
    rw [if_pos (by simpa using ha)]
    rw [ih (fun b hb => h b (List.mem_cons_of_mem _ hb))]

theorem takeWhile_no_space (nm rest : List Char) (h : ∀ a ∈ nm, a ≠ ' ') :
    (nm ++ ' ' :: rest).takeWhile (fun ch => ch ≠ ' ') = nm := by
  induction nm with
  | nil =>
    simp only [List.nil_append, List.takeWhile_cons]
    rw [if_neg (by simp)]
  | cons a nm ih =>
    have ha : a ≠ ' ' := h a (List.mem_cons_self _ _)
    simp only [List.cons_append, List.takeWhile_cons]
    rw [if_pos (by simpa using ha)]
    rw [ih (fun b hb => h b (List.mem_cons_of_mem _ hb))]

theorem dropWhile_no_space (nm rest : List Char) (h : ∀ a ∈ nm, a ≠ ' ') :
    (nm ++ ' ' :: rest).dropWhile (fun ch => ch ≠ ' ') = ' ' :: rest := by
  induction nm with
  | nil =>
    simp only [List.nil_append, List.dropWhile_cons]
    rw [if_neg (by simp)]
  | cons a nm ih =>
    have ha : a ≠ ' ' := h a (List.mem_cons_self _ _)
    simp only [List.cons_append, List.dropWhile_cons]
    rw [if_pos (by simpa using ha)]
    exact ih (fun b hb => h b (List.mem_cons_of_mem _ hb))

theorem protnameOf_append (nm s : List Char) (hlen : nm.length ≤ PROTNAME_LEN - 1)
    (hsp : ' ' ∉ nm) :
    protnameOf (nm ++ ' ' :: s) = nm := by
  have hno : ∀ a ∈ nm, a ≠ ' ' := fun a ha he => hsp (he ▸ ha)
  unfold protnameOf
  rw [List.take_append_eq_append_take]
  rw [List.take_of_length_le hlen]
  rcases Nat.eq_or_lt_of_le hlen with heq | hlt
  · rw [heq, Nat.sub_self]
    simp only [List.take_zero, List.append_nil]
    exact takeWhile_no_space_self nm hno
  · have hk : PROTNAME_LEN - 1 - nm.length = (PROTNAME_LEN - 1 - nm.length - 1) + 1 := by
      unfold PROTNAME_LEN at hlt ⊢
      omega
    rw [hk, List.take_succ_cons]
    exact takeWhile_no_space nm _ hno

theorem afterSpace_append (nm s : List Char) (hsp : ' ' ∉ nm) :
    afterSpace (nm ++ ' ' :: s) = s := by
  have hno : ∀ a ∈ nm, a ≠ ' ' := fun a ha he => hsp (he ▸ ha)
  unfold afterSpace
  rw [dropWhile_no_space nm s hno]
  rfl

theorem replay_block_mid (ds : List Nat) :
    ∀ (st : SPState) (p : Protocol) (ch : Char) (ty pid : Nat),
      st.protocols ≠ [] → st.seq ≠ [] → st.seq_protocol = some p →
      (∀ x ∈ ds, x ≠ 0) →
      decodesBlock st.seq.length p.id ch ty pid st.codes ds = true →
      ty &&& SP_END = 0 →
      st.seq.length + 1 ≠ p.maxCodeLen →
      st.seq.length + 1 ≠ MAX_SEQUENCE_LENGTH - 2 →
      ∃ cl1, parseList st ds =
        ({ st with codes := resetCodes st.codes, seq := st.seq ++ [ch],
                   seq_codelength := cl1 }, []) := by
  induction ds with
  | nil =>
    intro st p ch ty pid hne hseq hprot hds0 hdec hnoend hmax h118
    exact absurd hdec (by simp [decodesBlock])
  | cons d ds ih =>
    intro st p ch ty pid hne hseq hprot hds0 hdec hnoend hmax h118
    have hd0 : d ≠ 0 := hds0 d (List.mem_cons_self _ _)
    have hlid : lockedIdOf st = p.id := by
      unfold lockedIdOf
      rw [hprot]
    have hpm : protMaxLen st = p.maxCodeLen := by
      unfold protMaxLen
      rw [hprot]
    cases hds : ds with
    | nil =>
      subst hds
      obtain ⟨c1, hf, hn, ht, hpd⟩ := decodesBlock_single _ _ _ _ _ _ _ hdec
      have hf2 : (scanCodes st.seq.length (lockedIdOf st) d st.codes).found = some c1 := by
        rw [hlid]
        exact hf
      have hnoend2 : ¬(c1.type &&& SP_END ≠ 0 ∨ st.seq.length + 1 = protMaxLen st) := by
        intro hx
        rcases hx with hx | hx
        · exact hx (by rw [ht]; exact hnoend)
        · rw [hpm] at hx
          exact hmax hx
      have hb : parse st d =
          ({ st with codes := resetCodes st.codes, seq := st.seq ++ [c1.name],
                     seq_codelength := (st.seq_codelength + 1) % 256 }, []) :=
        parseBody_found_mid (parseFuel 1) st d c1 hne hseq hf2 hnoend2 h118
      refine ⟨(st.seq_codelength + 1) % 256, ?_⟩
      show parseList st [d] = _
      simp only [parseList]
      rw [if_neg hd0]
      show ((parseList (parse st d).1 []).1, (parse st d).2 ++ (parseList (parse st d).1 []).2) = _
      rw [hb]
      simp [parseList, hn]
    | cons d2 ds2 =>
      subst hds
      obtain ⟨hfn, hmt, hrec⟩ := decodesBlock_cons _ _ _ _ _ _ _ _ (by simp) hdec
      have hscaneq : scanCodes st.seq.length p.id d st.codes =
          scanCodes st.seq.length (lockedIdOf st) d st.codes := by
        rw [hlid]
      rw [hscaneq] at hfn hmt hrec
      have hb : parse st d =
          ({ st with codes := (scanCodes st.seq.length (lockedIdOf st) d st.codes).codes,
                     seq_codelength := (st.seq_codelength + 1) % 256 }, []) :=
        parseBody_matched_cont (parseFuel 1) st d hne hfn hmt
      obtain ⟨cl1, hrest⟩ := ih
        { st with codes := (scanCodes st.seq.length (lockedIdOf st) d st.codes).codes,
                  seq_codelength := (st.seq_codelength + 1) % 256 }
        p ch ty pid hne hseq hprot
        (fun a ha => hds0 a (List.mem_cons_of_mem _ ha)) hrec hnoend hmax h118
      refine ⟨cl1, ?_⟩
      show parseList st (d :: (d2 :: ds2)) = _
      simp only [parseList]
      rw [if_neg hd0]
      show ((parseList (parse st d).1 (d2 :: ds2)).1,
            (parse st d).2 ++ (parseList (parse st d).1 (d2 :: ds2)).2) = _
      rw [hb]
      simp only []
      rw [hrest]
      rw [show resetCodes (scanCodes st.seq.length (lockedIdOf st) d st.codes).codes =
            resetCodes st.codes from scanCodes_reset _ _ _ _]
      simp

theorem replay_block_first (ds : List Nat) :
    ∀ (st : SPState) (p : Protocol) (ch : Char) (ty pid : Nat),
      st.protocols ≠ [] → st.seq = [] →
      (∀ x ∈ ds, x ≠ 0) →
      decodesBlock 0 p.id ch ty pid st.codes ds = true →
      ty &&& SP_START ≠ 0 →
      ∃ cl1, parseList st ds =
        ({ st with codes := resetCodes st.codes, seq := [ch],
                   seq_codelength := cl1,
                   seq_protocol := findProtId st.protocols pid }, []) := by
  induction ds with
  | nil =>
    intro st p ch ty pid hne hseq hds0 hdec hstart
    exact absurd hdec (by simp [decodesBlock])
  | cons d ds ih =>
    intro st p ch ty pid hne hseq hds0 hdec hstart
    have hd0 : d ≠ 0 := hds0 d (List.mem_cons_self _ _)
    have hscaneq : scanCodes 0 p.id d st.codes =
        scanCodes st.seq.length (lockedIdOf st) d st.codes := by
      rw [hseq]
      exact scanCodes_seq0_locked p.id (lockedIdOf st) d st.codes
    cases hds : ds with
    | nil =>
      subst hds
      obtain ⟨c1, hf, hn, ht, hpd⟩ := decodesBlock_single _ _ _ _ _ _ _ hdec
      rw [hscaneq] at hf
      have hstart2 : c1.type &&& SP_START ≠ 0 := by
        rw [ht]
        exact hstart
      have hb : parse st d =
          ({ st with codes := resetCodes st.codes, seq := [c1.name],
                     seq_codelength := (st.seq_codelength + 1) % 256,
                     seq_protocol := findProtId st.protocols c1.protId }, []) :=
        parseBody_found_first (parseFuel 1) st d c1 hne hseq hf hstart2
      refine ⟨(st.seq_codelength + 1) % 256, ?_⟩
      show parseList st [d] = _
      simp only [parseList]
      rw [if_neg hd0]
      show ((parseList (parse st d).1 []).1,
            (parse st d).2 ++ (parseList (parse st d).1 []).2) = _
      rw [hb]
      simp [parseList, hn, hpd]
    | cons d2 ds2 =>
      subst hds
      obtain ⟨hfn, hmt, hrec⟩ := decodesBlock_cons _ _ _ _ _ _ _ _ (by simp) hdec
      rw [hscaneq] at hfn hmt hrec
      have hb : parse st d =
          ({ st with codes := (scanCodes st.seq.length (lockedIdOf st) d st.codes).codes,
                     seq_codelength := (st.seq_codelength + 1) % 256 }, []) :=
        parseBody_matched_cont (parseFuel 1) st d hne hfn hmt
      obtain ⟨cl1, hrest⟩ := ih
        { st with codes := (scanCodes st.seq.length (lockedIdOf st) d st.codes).codes,
                  seq_codelength := (st.seq_codelength + 1) % 256 }
        p ch ty pid hne hseq
        (fun a ha => hds0 a (List.mem_cons_of_mem _ ha)) hrec hstart
      refine ⟨cl1, ?_⟩
      show parseList st (d :: (d2 :: ds2)) = _
      simp only [parseList]
      rw [if_neg hd0]
      show ((parseList (parse st d).1 (d2 :: ds2)).1,
            (parse st d).2 ++ (parseList (parse st d).1 (d2 :: ds2)).2) = _
      rw [hb]
      simp only []
      rw [hrest]
      rw [show resetCodes (scanCodes st.seq.length (lockedIdOf st) d st.codes).codes =
            resetCodes st.codes from scanCodes_reset _ _ _ _]
      simp

theorem replay_block_last (ds : List Nat) :
    ∀ (st : SPState) (p : Protocol) (ch : Char) (ty pid : Nat),
      st.protocols ≠ [] → st.seq ≠ [] → st.seq_protocol = some p →
      (∀ x ∈ ds, x ≠ 0) →
      decodesBlock st.seq.length p.id ch ty pid st.codes ds = true →
      (ty &&& SP_END ≠ 0 ∨ st.seq.length + 1 = p.maxCodeLen) →
      parseList st ds =
        (fullReset st,
         if st.callbackAttached = true ∧ p.minCodeLen ≤ st.seq.length + 1 then
           [(p.name ++ ' ' :: (st.seq ++ [ch])).take 63]
         else []) := by
  induction ds with
  | nil =>
    intro st p ch ty pid hne hseq hprot hds0 hdec hend
    exact absurd hdec (by simp [decodesBlock])
  | cons d ds ih =>
    intro st p ch ty pid hne hseq hprot hds0 hdec hend
    have hd0 : d ≠ 0 := hds0 d (List.mem_cons_self _ _)
    have hlid : lockedIdOf st = p.id := by
      unfold lockedIdOf
      rw [hprot]
    have hpm : protMaxLen st = p.maxCodeLen := by
      unfold protMaxLen
      rw [hprot]
    have hpmin : protMinLen st = p.minCodeLen := by
      unfold protMinLen
      rw [hprot]
    have hpname : protName st = p.name := by
      unfold protName
      rw [hprot]
    cases hds : ds with
    | nil =>
      subst hds
      obtain ⟨c1, hf, hn, ht, hpd⟩ := decodesBlock_single _ _ _ _ _ _ _ hdec
      have hf2 : (scanCodes st.seq.length (lockedIdOf st) d st.codes).found = some c1 := by
        rw [hlid]
        exact hf
      have hend2 : c1.type &&& SP_END ≠ 0 ∨ st.seq.length + 1 = protMaxLen st := by
        rw [ht, hpm]
        exact hend
      have hb := parseBody_found_end (parseFuel 1) st d c1 hne hseq hf2 hend2
      show parseList st [d] = _
      simp only [parseList]
      rw [if_neg hd0]
      show ((parseList (parse st d).1 []).1,
            (parse st d).2 ++ (parseList (parse st d).1 []).2) = _
      rw [show (parse st d) = _ from hb]
      rw [hpmin, hpname, hn]
      simp [parseList]
    | cons d2 ds2 =>
      subst hds
      obtain ⟨hfn, hmt, hrec⟩ := decodesBlock_cons _ _ _ _ _ _ _ _ (by simp) hdec
      have hscaneq : scanCodes st.seq.length p.id d st.codes =
          scanCodes st.seq.length (lockedIdOf st) d st.codes := by
        rw [hlid]
      rw [hscaneq] at hfn hmt hrec
      have hb : parse st d =
          ({ st with codes := (scanCodes st.seq.length (lockedIdOf st) d st.codes).codes,
                     seq_codelength := (st.seq_codelength + 1) % 256 }, []) :=
        parseBody_matched_cont (parseFuel 1) st d hne hfn hmt
      have hrest := ih
        { st with codes := (scanCodes st.seq.length (lockedIdOf st) d st.codes).codes,
                  seq_codelength := (st.seq_codelength + 1) % 256 }
        p ch ty pid hne hseq hprot
        (fun a ha => hds0 a (List.mem_cons_of_mem _ ha)) hrec hend
      show parseList st (d :: (d2 :: ds2)) = _
      simp only [parseList]
      rw [if_neg hd0]
      show ((parseList (parse st d).1 (d2 :: ds2)).1,
            (parse st d).2 ++ (parseList (parse st d).1 (d2 :: ds2)).2) = _
      rw [hb]
      simp only []
      rw [hrest]
      have hfr : fullReset { st with
          codes := (scanCodes st.seq.length (lockedIdOf st) d st.codes).codes,
          seq_codelength := (st.seq_codelength + 1) % 256 } = fullReset st := by
        unfold fullReset
        simp [scanCodes_reset]
      rw [hfr]
      simp

theorem parseList_zero (st : SPState) : parseList st [0] = (st, []) := by
  simp [parseList]

theorem replay_chain (st0 : SPState) (p : Protocol)
    (hreset : resetCodes st0.codes = st0.codes)
    (hne : st0.protocols ≠ []) :
    ∀ (rest : List Code) (pre : List Char) (cl : Nat) (clast : Code),
      pre ≠ [] →
      chainOK p st0.codes pre.length rest = true →
      rest.getLast? = some clast →
      (clast.type &&& SP_END ≠ 0 ∨ pre.length + rest.length = p.maxCodeLen) →
      parseList (midState st0 p pre cl) ((rest.map midpoints).flatten ++ [0]) =
        (fullReset st0,
         if st0.callbackAttached = true ∧ p.minCodeLen ≤ pre.length + rest.length then
           [(p.name ++ ' ' :: (pre ++ rest.map Code.name)).take 63]
         else []) := by
  intro rest
  induction rest with
  | nil =>
    intro pre cl clast hpre hchain hlast hend
    exact absurd hlast (by simp)
  | cons c rest ih =>
    intro pre cl clast hpre hchain hlast hend
    have hmsne : (midState st0 p pre cl).protocols ≠ [] := hne
    have hmseq : (midState st0 p pre cl).seq ≠ [] := hpre
    have hmsprot : (midState st0 p pre cl).seq_protocol = some p := rfl
    cases hrest : rest with
    | nil =>
      subst hrest
      have hblock : blockOK p st0.codes pre.length c = true := by
        simpa [chainOK] using hchain
      unfold blockOK at hblock
      rw [Bool.and_eq_true] at hblock
      obtain ⟨hdec, hnz⟩ := hblock
      have hc : clast = c := by
        simp only [List.getLast?_singleton, Option.some.injEq] at hlast
        exact hlast.symm
      have hnz1 : ∀ x ∈ midpoints c, x ≠ 0 := by
        intro x hx
        have hx2 := (List.all_eq_true.mp hnz) x hx
        simpa using hx2
      have hflat : (([c].map midpoints).flatten ++ [0] : List Nat) = midpoints c ++ [0] := by
        simp
      rw [hflat, parseList_append _ _ _ hnz1]
      have hend2 : c.type &&& SP_END ≠ 0 ∨
          (midState st0 p pre cl).seq.length + 1 = p.maxCodeLen := by
        rcases hend with h | h
        · exact Or.inl (hc ▸ h)
        · right
          simpa using h
      have hlb := replay_block_last (midpoints c) (midState st0 p pre cl) p c.name c.type
        c.protId hmsne hmseq hmsprot hnz1 hdec hend2
      rw [hlb]
      have hfr : fullReset (midState st0 p pre cl) = fullReset st0 := rfl
      rw [parseList_zero, hfr]
      simp [midState]

    | cons c2 rest2 =>
      subst hrest
      unfold chainOK at hchain
      simp only [Bool.and_eq_true] at hchain
      obtain ⟨⟨⟨⟨hblock, hnoendb⟩, hmaxb⟩, h118b⟩, hchain2⟩ := hchain
      unfold blockOK at hblock
      rw [Bool.and_eq_true] at hblock
      obtain ⟨hdec, hnz⟩ := hblock
      have hnz1 : ∀ x ∈ midpoints c, x ≠ 0 := by
        intro x hx
        have hx2 := (List.all_eq_true.mp hnz) x hx
        simpa using hx2
      have hnoend : c.type &&& SP_END = 0 := by
        simpa using hnoendb
      have hmax : pre.length + 1 ≠ p.maxCodeLen := by
        simpa using hmaxb
      have h118 : pre.length + 1 ≠ MAX_SEQUENCE_LENGTH - 2 := by
        simpa [MAX_SEQUENCE_LENGTH] using h118b
      have hflat : (((c :: c2 :: rest2).map midpoints).flatten ++ [0] : List Nat) =
          midpoints c ++ (((c2 :: rest2).map midpoints).flatten ++ [0]) := by
        simp
      rw [hflat, parseList_append _ _ _ hnz1]
      obtain ⟨cl1, hmid⟩ := replay_block_mid (midpoints c) (midState st0 p pre cl) p c.name
        c.type c.protId hmsne hmseq hmsprot hnz1 hdec hnoend hmax h118
      rw [hmid]
      have hcodes : resetCodes (midState st0 p pre cl).codes = st0.codes := by
        rw [show (midState st0 p pre cl).codes = st0.codes from rfl, hreset]
      have hstep : ({ midState st0 p pre cl with
            codes := resetCodes (midState st0 p pre cl).codes,
            seq := (midState st0 p pre cl).seq ++ [c.name],
            seq_codelength := cl1 } : SPState) = midState st0 p (pre ++ [c.name]) cl1 := by
        rw [hcodes]
        rfl
      rw [hstep]
      rw [List.getLast?_cons_cons] at hlast
      have hpre2 : (pre ++ [c.name] : List Char) ≠ [] := by simp
      have hchain2x : chainOK p st0.codes (pre ++ [c.name]).length (c2 :: rest2) = true := by
        simpa using hchain2
      have hend2 : clast.type &&& SP_END ≠ 0 ∨
          (pre ++ [c.name]).length + (c2 :: rest2).length = p.maxCodeLen := by
        rcases hend with h | h
        · exact Or.inl h
        · right
          simp only [List.length_append, List.length_cons, List.length_singleton,
            List.length_nil] at h ⊢
          omega
      rw [ih (pre ++ [c.name]) cl1 clast hpre2 hchain2x hlast hend2]
      have h1 : (pre ++ [c.name]).length + (c2 :: rest2).length =
          pre.length + (c :: c2 :: rest2).length := by
        simp
        omega
      have h2 : (pre ++ [c.name]) ++ (c2 :: rest2).map Code.name =
          pre ++ (c :: c2 :: rest2).map Code.name := by
        simp
      rw [h1, h2]
      simp

/-- Claim C5 (amended): a sequence string emitted by the Matcher — protocol
p locked, first code START-capable, interior codes neither END-capable nor
landing on maxCodeLen or the buffer cap, last code ending the attempt,
length at least minCodeLen, text short enough for the 64-byte emission
buffer — when passed through compose and fed back into the Matcher from
the IDLE state, reproduces the identical emitted text, PROVIDED the table
replays unambiguously: each constituent code's midpoint-duration block,
scanned at its position, completes exactly that code (blockOK/chainOK) and
no midpoint is zero.  Without the unambiguity premise the claim is false
(see the counterexample): midpoints may fall into an earlier-registered
overlapping window. -/
theorem c5_roundtrip_amended (st0 : SPState) (p : Protocol) (c0 : Code) (rest : List Code)
    (clast : Code)
    (hreset : resetCodes st0.codes = st0.codes)
    (hne : st0.protocols ≠ [])
    (hseq0 : st0.seq = [])
    (hnamelen : p.name.length ≤ PROTNAME_LEN - 1)
    (hnamesp : ' ' ∉ p.name)
    (hfindname : findProtName st0.protocols p.name = some p)
    (hfindid : findProtId st0.protocols p.id = some p)
    (hres : ∀ c ∈ c0 :: rest, findCode st0.codes p.id c.name = some c)
    (hstart : c0.type &&& SP_START ≠ 0)
    (hblock0 : blockOK p st0.codes 0 c0 = true)
    (hchain : chainOK p st0.codes 1 rest = true)
    (hlast : rest.getLast? = some clast)
    (hend : clast.type &&& SP_END ≠ 0 ∨ 1 + rest.length = p.maxCodeLen)
    (hmin : p.minCodeLen ≤ 1 + rest.length)
    (hfit : p.name.length + 1 + (1 + rest.length) ≤ 63)
    (hcb : st0.callbackAttached = true) :
    ∃ ds, compose st0 (p.name ++ ' ' :: (c0 :: rest).map Code.name)
        ((c0 :: rest).map Code.name).length = some ds ∧
      parseList st0 ds =
        (fullReset st0, [p.name ++ ' ' :: (c0 :: rest).map Code.name]) := by
  have hmaps : ((c0 :: rest).map Code.name).map (fun ch =>
      match findCode st0.codes p.id ch with
      | some c => midpoints c
      | none => []) = (c0 :: rest).map midpoints := by
    rw [List.map_map]
    apply List.map_congr_left
    intro c hc
    simp [Function.comp, hres c hc]
  have hcomp : compose st0 (p.name ++ ' ' :: (c0 :: rest).map Code.name)
      ((c0 :: rest).map Code.name).length =
      some (((c0 :: rest).map midpoints).flatten ++ [0]) := by
    unfold compose
    rw [protnameOf_append _ _ hnamelen hnamesp, hfindname]
    dsimp only
    rw [composeChars_eq_flatten, afterSpace_append _ _ hnamesp, List.take_length, hmaps]
  refine ⟨((c0 :: rest).map midpoints).flatten ++ [0], hcomp, ?_⟩
  have hsplit : (((c0 :: rest).map midpoints).flatten ++ [0] : List Nat) =
      midpoints c0 ++ ((rest.map midpoints).flatten ++ [0]) := by
    simp
  rw [hsplit]
  unfold blockOK at hblock0
  rw [Bool.and_eq_true] at hblock0
  obtain ⟨hdec0, hnz0⟩ := hblock0
  have hnz0x : ∀ x ∈ midpoints c0, x ≠ 0 := by
    intro x hx
    have hx2 := (List.all_eq_true.mp hnz0) x hx
    simpa using hx2
  rw [parseList_append _ _ _ hnz0x]
  obtain ⟨cl1, hfirst⟩ := replay_block_first (midpoints c0) st0 p c0.name c0.type c0.protId
    hne hseq0 hnz0x hdec0 hstart
  have hc0pid : c0.protId = p.id :=
    (findCode_protId_name _ _ _ _ (hres c0 (List.mem_cons_self _ _))).1
  have hstate : ({ st0 with
      codes := resetCodes st0.codes, seq := [c0.name],
      seq_codelength := cl1, seq_protocol := findProtId st0.protocols c0.protId } : SPState) =
      midState st0 p [c0.name] cl1 := by
    rw [hreset, hc0pid, hfindid]
    rfl
  rw [hfirst]
  simp only []
  rw [hstate]
  rw [replay_chain st0 p hreset hne rest [c0.name] cl1 clast (by simp) hchain hlast hend]
  have htext : ([c0.name] ++ rest.map Code.name : List Char) = (c0 :: rest).map Code.name := by
    simp
  rw [if_pos ⟨hcb, hmin⟩, htext]
  have hlen63 : (p.name ++ ' ' :: (c0 :: rest).map Code.name).length ≤ 63 := by
    simp only [List.length_append, List.length_cons, List.length_map]
    omega
  rw [List.take_of_length_le hlen63]
  simp

/-- Counterexample for C5 as stated: the matcher of exTable1 emits "p sbe"
for the durations 1000, 220, 4001, but composing that string and feeding
the midpoint durations 1000, 190, 4000 back decodes "p sae": the midpoint
190 of code b also lies inside the window [120,200] of the
earlier-registered code a, which completes first. -/
theorem c5_counterexample :
    (parseList exTable1 [1000, 220, 4001]).2 = [['p', ' ', 's', 'b', 'e']] ∧
    compose exTable1 ['p', ' ', 's', 'b', 'e'] 10 = some [1000, 190, 4000, 0] ∧
    (parseList exTable1 [1000, 190, 4000, 0]).2 = [['p', ' ', 's', 'a', 'e']] ∧
    (['p', ' ', 's', 'a', 'e'] : List Char) ≠ ['p', ' ', 's', 'b', 'e'] := by
  decide

/-- Witness for C5 (amended): on the unambiguous table without code a, the
round trip of "p sbe" reproduces exactly "p sbe". -/
theorem c5_witness :
    ∃ ds, compose exTable5w ['p', ' ', 's', 'b', 'e'] 3 = some ds ∧
      parseList exTable5w ds = (fullReset exTable5w, [['p', ' ', 's', 'b', 'e']]) := by
  have h := c5_roundtrip_amended exTable5w ⟨1, ['p'], 2, 100, 25, 3⟩
    ⟨1, 1, 's', 1, [750], [1250], 0, true⟩
    [⟨1, 2, 'b', 1, [143], [237], 0, true⟩, ⟨1, 4, 'e', 1, [3000], [5000], 0, true⟩]
    ⟨1, 4, 'e', 1, [3000], [5000], 0, true⟩
    (by decide) (by decide) (by decide) (by decide) (by decide) (by decide) (by decide)
    (by decide) (by decide) (by decide) (by decide) (by decide) (by decide) (by decide)
    (by decide) (by decide)
  exact h

end SignalParser
